import Mathlib

/-!
Verification of the `approx` package (approximate numbers: a central value
plus a nonnegative uncertainty delta, with interval-style error propagation).

The Go source computes over IEEE-754 `float64`.  The embedding models a
`float64` as an exact rational extended with the IEEE special values `+Inf`,
`-Inf` and `NaN` (type `FP` below): finite arithmetic is exact (rounding,
overflow to infinity and the signed zero are abstracted away), while the
propagation rules for infinities and NaN follow IEEE-754, since several
operations of the package (`Div`, `RelDelta`) produce and consume them.
Comparisons return `Bool`, as in the source, and every comparison involving
NaN is false.

Functions taken from the Go standard library (`math.Log`, `math.Exp`,
`strconv.ParseFloat`, the `%v` float formatter) are not part of this
repository; they appear as explicit function parameters of the embedded
definitions that call them.  `Apply`'s dispatch on function-pointer identity
(`eqFunc`) is modelled by an explicit tag (`FnTag`), the replacement the
specification itself prescribes for languages without reference identity.
-/

namespace Approx

/-- A `float64` value: a finite rational, a signed infinity (`inf true` is
`-Inf`, `inf false` is `+Inf`), or NaN.  Rounding and the signed zero are
abstracted away; special-value propagation follows IEEE-754. -/
inductive FP where
  | fin (q : ℚ)
  | inf (neg : Bool)
  | nan
deriving DecidableEq

/-- IEEE negation. -/
def fpNeg : FP → FP
  | .fin q => .fin (-q)
  | .inf s => .inf (!s)
  | .nan => .nan

/-- IEEE addition: NaN propagates; infinities of opposite sign give NaN. -/
def fpAdd : FP → FP → FP
  | .nan, _ => .nan
  | .fin a, .fin b => .fin (a + b)
  | .fin _, .inf s => .inf s
  | .fin _, .nan => .nan
  | .inf s, .fin _ => .inf s
  | .inf s, .inf t => if s = t then .inf s else .nan
  | .inf _, .nan => .nan

/-- IEEE subtraction, as addition of the negation. -/
def fpSub (x y : FP) : FP := fpAdd x (fpNeg y)

/-- IEEE multiplication: NaN propagates; `0 * Inf` is NaN; signs multiply. -/
def fpMul : FP → FP → FP
  | .nan, _ => .nan
  | .fin a, .fin b => .fin (a * b)
  | .fin a, .inf s => if a = 0 then .nan else .inf (xor (decide (a < 0)) s)
  | .fin _, .nan => .nan
  | .inf s, .fin b => if b = 0 then .nan else .inf (xor s (decide (b < 0)))
  | .inf s, .inf t => .inf (xor s t)
  | .inf _, .nan => .nan

/-- IEEE division: NaN propagates; `x/0` is `±Inf` for `x ≠ 0` and NaN for
`0/0`; `finite/Inf` is `0`; `Inf/Inf` is NaN. -/
def fpDiv : FP → FP → FP
  | .nan, _ => .nan
  | .fin a, .fin b =>
      if b = 0 then (if a = 0 then .nan else .inf (decide (a < 0)))
      else .fin (a / b)
  | .fin _, .inf _ => .fin 0
  | .fin _, .nan => .nan
  | .inf s, .fin b => .inf (xor s (decide (b < 0)))
  | .inf _, .inf _ => .nan
  | .inf _, .nan => .nan

/-- IEEE absolute value (`math.Abs`): NaN stays NaN, infinities become
`+Inf`. -/
def fpAbs : FP → FP
  | .fin q => .fin |q|
  | .inf _ => .inf false
  | .nan => .nan

/-- IEEE strict comparison `<`: every comparison involving NaN is false. -/
def fpLt : FP → FP → Bool
  | .nan, _ => false
  | .fin a, .fin b => decide (a < b)
  | .fin _, .inf s => !s
  | .fin _, .nan => false
  | .inf s, .fin _ => s
  | .inf s, .inf t => s && !t
  | .inf _, .nan => false

/-- IEEE comparison `<=`: every comparison involving NaN is false. -/
def fpLe : FP → FP → Bool
  | .nan, _ => false
  | .fin a, .fin b => decide (a ≤ b)
  | .fin _, .inf s => !s
  | .fin _, .nan => false
  | .inf s, .fin _ => s
  | .inf s, .inf t => s || !t
  | .inf _, .nan => false

/-- `Float64` from the source: a floating point number with a degree of
uncertainty, an exact value `val` and a `delta` about it. -/
structure Float64 where
  val : FP
  delta : FP
deriving DecidableEq

/-- `Value` accessor: the value at the center of the interval. -/
def Float64.Value (f : Float64) : FP := f.val

/-- `Delta` accessor: the delta around the interval. -/
def Float64.Delta (f : Float64) : FP := f.delta

/-- `Min`: the minimal extreme value for `f` (`f.val - f.delta`). -/
def Float64.Min (f : Float64) : FP := fpSub f.val f.delta

/-- `Max`: the maximal extreme value for `f` (`f.val + f.delta`). -/
def Float64.Max (f : Float64) : FP := fpAdd f.val f.delta

/-- `RelDelta`: the relative error of `f`, `|delta / val|`. -/
def Float64.RelDelta (f : Float64) : FP := fpAbs (fpDiv f.delta f.val)

/-- `New`: constructs a `Float64` from exact components; the recorded delta
is normalized with `math.Abs`. -/
def New (val delta : FP) : Float64 := ⟨val, fpAbs delta⟩

/-- The error returned by `NewMinMax` when `max < min`. -/
inductive RangeErr where
  | invalidRange
deriving DecidableEq

/-- `NewMinMax`: builds the `Float64` whose interval is `[min, max]`; fails
when `max < min`. -/
def NewMinMax (mn mx : FP) : Except RangeErr Float64 :=
  if fpLt mx mn then Except.error RangeErr.invalidRange
  else
    Except.ok (New (fpDiv (fpAdd mn mx) (FP.fin 2)) (fpAbs (fpDiv (fpSub mx mn) (FP.fin 2))))

/-- `Add`: sum of two approximate numbers; values add and deltas add. -/
def Add (a b : Float64) : Float64 :=
  New (fpAdd a.val b.val) (fpAdd a.delta b.delta)

/-- `Sub`: difference of two approximate numbers; values subtract and deltas
add. -/
def Sub (a b : Float64) : Float64 :=
  New (fpSub a.val b.val) (fpAdd a.delta b.delta)

/-- `Mul`: product of two approximate numbers via the sum of relative
errors. -/
def Mul (a b : Float64) : Float64 :=
  let relA := fpAbs (fpDiv a.delta a.val)
  let relB := fpAbs (fpDiv b.delta b.val)
  let rel := fpAdd relA relB
  let val := fpMul a.val b.val
  let delta := fpAbs (fpMul val rel)
  New val delta

/-- The scalar-product method `(f Float64) Mul(c float64)`. -/
def MulScalar (f : Float64) (c : FP) : Float64 :=
  New (fpMul c f.val) (fpAbs (fpMul c f.delta))

/-- `Div`: quotient of two approximate numbers via the sum of relative
errors; zeroes cause infinities. -/
def Div (a b : Float64) : Float64 :=
  let relA := fpAbs (fpDiv a.delta a.val)
  let relB := fpAbs (fpDiv b.delta b.val)
  let rel := fpAdd relA relB
  let val := fpDiv a.val b.val
  let delta := fpAbs (fpMul val rel)
  New val delta

/-- `Lt`: `f` is definitely less than `t`. -/
def Lt (f t : Float64) : Bool :=
  fpLt (fpAdd f.val f.delta) (fpSub t.val t.delta)

/-- `Le`: `f` is definitely less than or equal to `t`. -/
def Le (f t : Float64) : Bool :=
  fpLe (fpAdd f.val f.delta) (fpSub t.val t.delta)

/-- `Gt`: `f` is definitely greater than `t`, defined as `t.Le(f)`. -/
def Gt (f t : Float64) : Bool := Le t f

/-- `Ge`: `f` is definitely greater than or equal to `t`, defined as
`t.Lt(f)`. -/
def Ge (f t : Float64) : Bool := Lt t f

/-- `Overlap`: the intervals of `f` and `t` may overlap. -/
def Overlap (f t : Float64) : Bool := !(Le f t) && !(Le t f)

/-- `applyLog`: first-order propagation through the natural logarithm.
`logf` stands for the standard library function `math.Log`, which is not
part of this repository. -/
def applyLog (logf : FP → FP) (f : Float64) : Float64 :=
  let delta := fpDiv f.delta f.val
  let val := logf f.val
  New val delta

/-- `applyExp`: first-order propagation through the exponential.  `expf`
stands for the standard library function `math.Exp`. -/
def applyExp (expf : FP → FP) (f : Float64) : Float64 :=
  let val := expf f.val
  let delta := fpMul val f.delta
  New val delta

/-- The outcome of `Apply`'s function-pointer identity dispatch (`eqFunc`),
modelled as an explicit tag: the argument is recognized as `math.Log`, as
`math.Exp`, or is a generic function `g`. -/
inductive FnTag where
  | log
  | exp
  | generic (g : FP → FP)

/-- `Apply`: applies a function to an approximate number; recognized
functions use their analytic derivative, generic functions a central
finite-difference derivative with half-width `eps`. -/
def Apply (logf expf : FP → FP) (tag : FnTag) (f : Float64) (eps : FP) : Float64 :=
  match tag with
  | .log => applyLog logf f
  | .exp => applyExp expf f
  | .generic g =>
      let fmin := g (fpSub f.val eps)
      let fmax := g (fpAdd f.val eps)
      let d := fpMul (FP.fin 2) eps
      let dfx := fpDiv (fpSub fmax fmin) d
      New (g f.val) (fpAbs (fpMul dfx f.delta))

/-- The separator rune `±` of the textual notation. -/
def sepChar : Char := '±'

/-- The space-stripping pass of `Parse`: `strings.Map` dropping every
whitespace rune.  Strings are modelled as lists of runes. -/
def stripSpaces (s : List Char) : List Char :=
  s.filter (fun c => !c.isWhitespace)

/-- `strings.Split` on a one-rune separator: the list of maximal chunks
between occurrences of `sep` (always at least one chunk). -/
def splitChar (sep : Char) : List Char → List (List Char)
  | [] => [[]]
  | c :: rest =>
      let r := splitChar sep rest
      if c = sep then [] :: r
      else
        match r with
        | [] => [[c]]
        | h :: t => (c :: h) :: t

/-- The three error causes of `Parse`: a malformed central value, a
malformed delta, or a malformed overall structure (wrong number of
components around `±`). -/
inductive ParseErr where
  | badValue
  | badDelta
  | badStructure
deriving DecidableEq

/-- `Parse`: parses an uncertain number from a string.  `pf` stands for the
standard library float parser `strconv.ParseFloat`, which is not part of
this repository (`none` models its error return). -/
def Parse (pf : List Char → Option FP) (s : List Char) : Except ParseErr Float64 :=
  match splitChar sepChar (stripSpaces s) with
  | [v] =>
      match pf v with
      | some q => Except.ok ⟨q, FP.fin 0⟩
      | none => Except.error ParseErr.badValue
  | [v, d] =>
      match pf v with
      | none => Except.error ParseErr.badValue
      | some qv =>
          match pf d with
          | none => Except.error ParseErr.badDelta
          | some qd => Except.ok ⟨qv, fpAbs qd⟩
  | _ => Except.error ParseErr.badStructure

/-- The `String` method (`Stringer`): renders `"<val>±<delta>"`.  `fmtv`
stands for the `%v` float formatter of the standard library, which is not
part of this repository. -/
def StringOf (fmtv : FP → List Char) (f : Float64) : List Char :=
  fmtv f.val ++ sepChar :: fmtv f.delta

/-- A one-token concrete stand-in for `strconv.ParseFloat`, used to
instantiate parametrized statements on a concrete input. -/
def pfOne : List Char → Option FP :=
  fun l => if l = ['1'] then some (FP.fin 1) else none

/-- A two-value concrete stand-in for the `%v` float formatter. -/
def fmtvDemo : FP → List Char :=
  fun x => if x = FP.fin 1 then ['1'] else ['2']

/-- A two-token concrete stand-in for `strconv.ParseFloat`, the inverse of
`fmtvDemo` on its range. -/
def pfDemo : List Char → Option FP :=
  fun l =>
    if l = ['1'] then some (FP.fin 1)
    else if l = ['2'] then some (FP.fin 2) else none

/-! Helper lemmas about the `FP` operations. -/

theorem fpAbs_fpAbs (x : FP) : fpAbs (fpAbs x) = fpAbs x := by
  cases x <;> simp [fpAbs]

theorem fpAbs_of_nonneg (x : FP) (h : fpLe (FP.fin 0) x = true) : fpAbs x = x := by
  cases x with
  | fin q =>
      simp [fpLe, decide_eq_true_eq] at h
      simp [fpAbs, abs_of_nonneg h]
  | inf s =>
      simp [fpLe] at h
      simp [fpAbs, h]
  | nan => simp [fpLe] at h

theorem fpAdd_nonneg (x y : FP) (hx : fpLe (FP.fin 0) x = true)
    (hy : fpLe (FP.fin 0) y = true) : fpLe (FP.fin 0) (fpAdd x y) = true := by
  cases x with
  | fin a =>
      cases y with
      | fin b => simp_all [fpLe, fpAdd, decide_eq_true_eq]; positivity
      | inf s => simp_all [fpLe, fpAdd]
      | nan => simp_all [fpLe]
  | inf s =>
      cases y with
      | fin b => simp_all [fpLe, fpAdd]
      | inf t => simp_all [fpLe, fpAdd]
      | nan => simp_all [fpLe]
  | nan => simp_all [fpLe]

theorem fpAbs_not_lt_zero (x : FP) : fpLt (fpAbs x) (FP.fin 0) = false := by
  cases x with
  | fin q =>
      simp only [fpAbs, fpLt, decide_eq_false_iff_not]
      exact not_lt.mpr (abs_nonneg q)
  | inf s => simp [fpAbs, fpLt]
  | nan => simp [fpAbs, fpLt]

/-! ### C1: subtraction -/

/-- C1: for all approximate numbers `a` and `b` (deltas nonnegative, per the
data-model invariant), `Sub(a, b)` has value `a.val - b.val` and delta
`a.delta + b.delta`: the deltas add even though the central values
subtract. -/
theorem sub_value_delta (a b : Float64)
    (ha : fpLe (FP.fin 0) a.delta = true) (hb : fpLe (FP.fin 0) b.delta = true) :
    (Sub a b).val = fpSub a.val b.val ∧ (Sub a b).delta = fpAdd a.delta b.delta := by
  refine ⟨rfl, ?_⟩
  show fpAbs (fpAdd a.delta b.delta) = fpAdd a.delta b.delta
  exact fpAbs_of_nonneg _ (fpAdd_nonneg _ _ ha hb)

/-- C1 witness: the theorem applied to `5±1` and `3±2`. -/
theorem sub_value_delta_witness :
    fpLe (FP.fin 0) (New (FP.fin 5) (FP.fin 1)).delta = true ∧
    fpLe (FP.fin 0) (New (FP.fin 3) (FP.fin 2)).delta = true ∧
    (Sub (New (FP.fin 5) (FP.fin 1)) (New (FP.fin 3) (FP.fin 2))).delta =
      fpAdd (New (FP.fin 5) (FP.fin 1)).delta (New (FP.fin 3) (FP.fin 2)).delta :=
  ⟨by norm_num [New, fpAbs, fpLe], by norm_num [New, fpAbs, fpLe],
    (sub_value_delta (New (FP.fin 5) (FP.fin 1)) (New (FP.fin 3) (FP.fin 2))
      (by norm_num [New, fpAbs, fpLe]) (by norm_num [New, fpAbs, fpLe])).2⟩

/-! ### C2: the delta invariant -/

/-- C2 counterexample: `Div(0±0, 1±0)` is accepted by `Div`, yet its stored
delta — the value `Delta()` returns — is NaN: not a nonnegative value, and
not comparable with `0`.  The claim that every produced delta satisfies
`delta >= 0` is therefore false. -/
theorem delta_nonneg_counterexample :
    (Div (New (FP.fin 0) (FP.fin 0)) (New (FP.fin 1) (FP.fin 0))).Delta = FP.nan ∧
    fpLe (FP.fin 0) ((Div (New (FP.fin 0) (FP.fin 0)) (New (FP.fin 1) (FP.fin 0))).Delta)
      = false := by
  constructor <;>
    norm_num [Div, New, Float64.Delta, fpAbs, fpDiv, fpAdd, fpMul, fpLe]

/-- C2 amended: every `Float64` produced by a public operation (`New`,
`NewMinMax`, `Parse`, `Add`, `Sub`, `Mul`, the scalar `Mul` method, `Div`,
`Apply`) has a delta that is never negative: `Delta() < 0` is false.  (The
delta can, however, be NaN — hence incomparable — when the inputs are
degenerate, as the counterexample shows.) -/
theorem delta_never_negative :
    (∀ v d, fpLt (New v d).Delta (FP.fin 0) = false) ∧
    (∀ mn mx f, NewMinMax mn mx = Except.ok f → fpLt f.Delta (FP.fin 0) = false) ∧
    (∀ pf s f, Parse pf s = Except.ok f → fpLt f.Delta (FP.fin 0) = false) ∧
    (∀ a b, fpLt (Add a b).Delta (FP.fin 0) = false) ∧
    (∀ a b, fpLt (Sub a b).Delta (FP.fin 0) = false) ∧
    (∀ a b, fpLt (Mul a b).Delta (FP.fin 0) = false) ∧
    (∀ f c, fpLt (MulScalar f c).Delta (FP.fin 0) = false) ∧
    (∀ a b, fpLt (Div a b).Delta (FP.fin 0) = false) ∧
    (∀ logf expf tag f eps, fpLt ((Apply logf expf tag f eps).Delta) (FP.fin 0) = false) := by
  refine ⟨fun v d => fpAbs_not_lt_zero d, ?_, ?_, fun a b => fpAbs_not_lt_zero _,
    fun a b => fpAbs_not_lt_zero _, fun a b => fpAbs_not_lt_zero _,
    fun f c => fpAbs_not_lt_zero _, fun a b => fpAbs_not_lt_zero _, ?_⟩
  · intro mn mx f h
    unfold NewMinMax at h
    split at h
    · exact absurd h (by simp)
    · rw [Except.ok.injEq] at h
      subst h
      exact fpAbs_not_lt_zero _
  · intro pf s f h
    unfold Parse at h
    split at h
    · split at h
      · rw [Except.ok.injEq] at h
        subst h
        simp [Float64.Delta, fpLt]
      · exact absurd h (by simp)
    · split at h
      · exact absurd h (by simp)
      · split at h
        · exact absurd h (by simp)
        · rw [Except.ok.injEq] at h
          subst h
          exact fpAbs_not_lt_zero _
    · exact absurd h (by simp)
  · intro logf expf tag f eps
    cases tag <;> exact fpAbs_not_lt_zero _

/-- C2 witness: the amended theorem applied to concrete successful
`NewMinMax` and `Parse` runs. -/
theorem delta_never_negative_witness :
    NewMinMax (FP.fin 0) (FP.fin 2) = Except.ok (New (FP.fin 1) (FP.fin 1)) ∧
    fpLt (New (FP.fin 1) (FP.fin 1)).Delta (FP.fin 0) = false ∧
    Parse pfOne ['1'] = Except.ok ⟨FP.fin 1, FP.fin 0⟩ ∧
    fpLt (Float64.Delta ⟨FP.fin 1, FP.fin 0⟩) (FP.fin 0) = false := by
  have hNM : NewMinMax (FP.fin 0) (FP.fin 2) = Except.ok (New (FP.fin 1) (FP.fin 1)) := by
    norm_num [NewMinMax, New, fpLt, fpAbs, fpAdd, fpSub, fpNeg, fpDiv]
  have hP : Parse pfOne ['1'] = Except.ok ⟨FP.fin 1, FP.fin 0⟩ := rfl
  exact ⟨hNM, delta_never_negative.2.1 _ _ _ hNM, hP, delta_never_negative.2.2.1 _ _ _ hP⟩

/-! ### C3: multiplication -/

/-- C3: for all approximate numbers `a` and `b`, `Mul(a, b)` has value
`a.val * b.val` and delta `|value * (|a.delta/a.val| + |b.delta/b.val|)|`:
the absolute product value times the sum of the two operands' relative
errors. -/
theorem mul_value_delta (a b : Float64) :
    (Mul a b).val = fpMul a.val b.val ∧
    (Mul a b).delta =
      fpAbs (fpMul (fpMul a.val b.val) (fpAdd (Float64.RelDelta a) (Float64.RelDelta b))) := by
  refine ⟨rfl, ?_⟩
  show fpAbs (fpAbs _) = _
  rw [fpAbs_fpAbs]
  rfl

/-! ### C4: comparison predicates -/

/-- C4: `Lt(f,t)` holds iff `f.Max() < t.Min()`, `Le(f,t)` iff
`f.Max() <= t.Min()`, `Gt(f,t)` equals `Le(t,f)`, and `Ge(f,t)` equals
`Lt(t,f)`. -/
theorem comparisons_endpoints (f t : Float64) :
    Lt f t = fpLt (Float64.Max f) (Float64.Min t) ∧
    Le f t = fpLe (Float64.Max f) (Float64.Min t) ∧
    Gt f t = Le t f ∧
    Ge f t = Lt t f :=
  ⟨rfl, rfl, rfl, rfl⟩

/-! ### C5: overlap -/

/-- C5: `Overlap(f,t)` is true iff neither `Le(f,t)` nor `Le(t,f)`; for
`f = New(1,1)` and `t = New(2,1)`, `Lt`, `Le`, `Gt`, `Ge` are all false
while `Overlap` is true. -/
theorem overlap_spec :
    (∀ f t : Float64, Overlap f t = (!(Le f t) && !(Le t f))) ∧
    Lt (New (FP.fin 1) (FP.fin 1)) (New (FP.fin 2) (FP.fin 1)) = false ∧
    Le (New (FP.fin 1) (FP.fin 1)) (New (FP.fin 2) (FP.fin 1)) = false ∧
    Gt (New (FP.fin 1) (FP.fin 1)) (New (FP.fin 2) (FP.fin 1)) = false ∧
    Ge (New (FP.fin 1) (FP.fin 1)) (New (FP.fin 2) (FP.fin 1)) = false ∧
    Overlap (New (FP.fin 1) (FP.fin 1)) (New (FP.fin 2) (FP.fin 1)) = true :=
  ⟨fun _ _ => rfl,
    by norm_num [Lt, New, fpAbs, fpAdd, fpSub, fpNeg, fpLt],
    by norm_num [Le, New, fpAbs, fpAdd, fpSub, fpNeg, fpLe],
    by norm_num [Gt, Le, New, fpAbs, fpAdd, fpSub, fpNeg, fpLe],
    by norm_num [Ge, Lt, New, fpAbs, fpAdd, fpSub, fpNeg, fpLt],
    by norm_num [Overlap, Le, New, fpAbs, fpAdd, fpSub, fpNeg, fpLe]⟩

/-! ### C6: NewMinMax -/

/-- C6: `NewMinMax(min, max)` returns an `InvalidRangeError` iff
`max < min`; otherwise it succeeds with value `(min+max)/2` and delta
`|(max-min)/2|`; and for every approximate number `a` with finite value and
finite nonnegative delta, `NewMinMax(a.Min(), a.Max())` reconstructs `a`
exactly. -/
theorem newMinMax_spec :
    (∀ mn mx, NewMinMax mn mx = Except.error RangeErr.invalidRange ↔ fpLt mx mn = true) ∧
    (∀ mn mx, fpLt mx mn = false →
      NewMinMax mn mx =
        Except.ok ⟨fpDiv (fpAdd mn mx) (FP.fin 2), fpAbs (fpDiv (fpSub mx mn) (FP.fin 2))⟩) ∧
    (∀ (a : Float64) (v d : ℚ), a.val = FP.fin v → a.delta = FP.fin d → 0 ≤ d →
      NewMinMax (Float64.Min a) (Float64.Max a) = Except.ok a) := by
  refine ⟨?_, ?_, ?_⟩
  · intro mn mx
    unfold NewMinMax
    cases hc : fpLt mx mn <;> simp [hc]
  · intro mn mx h
    unfold NewMinMax
    simp [h, New, fpAbs_fpAbs]
  · intro a v d hv hd hdnn
    obtain ⟨av, ad⟩ := a
    simp only at hv hd
    subst hv
    subst hd
    have hc : ¬ (v + d < v + -d) := by linarith
    simp only [Float64.Min, Float64.Max, fpSub, fpNeg, fpAdd, NewMinMax, fpLt,
      decide_eq_true_eq, hc, if_false, fpDiv, New, fpAbs]
    norm_num
    constructor
    · ring
    · have h2 : v + d + (d + -v) = 2 * d := by ring
      rw [h2]
      have h3 : (2 : ℚ) * d / 2 = d := by ring
      rw [h3]
      exact abs_of_nonneg hdnn

/-- C6 witness: the success form applied at `[0, 2]`, and the round trip
applied to `3±1`. -/
theorem newMinMax_spec_witness :
    fpLt (FP.fin 2) (FP.fin 0) = false ∧
    NewMinMax (FP.fin 0) (FP.fin 2) =
      Except.ok ⟨fpDiv (fpAdd (FP.fin 0) (FP.fin 2)) (FP.fin 2),
        fpAbs (fpDiv (fpSub (FP.fin 2) (FP.fin 0)) (FP.fin 2))⟩ ∧
    NewMinMax (Float64.Min ⟨FP.fin 3, FP.fin 1⟩) (Float64.Max ⟨FP.fin 3, FP.fin 1⟩) =
      Except.ok ⟨FP.fin 3, FP.fin 1⟩ :=
  ⟨by norm_num [fpLt], newMinMax_spec.2.1 _ _ (by norm_num [fpLt]),
    newMinMax_spec.2.2 ⟨FP.fin 3, FP.fin 1⟩ 3 1 rfl rfl (by norm_num)⟩

/-! ### C7: division by a zero-valued divisor -/

/-- C7 counterexample: for `a = 1±0` and the zero-valued divisor
`b = 0±0`, `b`'s relative error contribution and the result's delta are
NaN, not infinite, so the claim fails for a divisor with zero delta. -/
theorem div_by_zero_counterexample :
    Float64.RelDelta (New (FP.fin 0) (FP.fin 0)) = FP.nan ∧
    Float64.RelDelta (New (FP.fin 0) (FP.fin 0)) ≠ FP.inf false ∧
    (Div (New (FP.fin 1) (FP.fin 0)) (New (FP.fin 0) (FP.fin 0))).Delta = FP.nan ∧
    (Div (New (FP.fin 1) (FP.fin 0)) (New (FP.fin 0) (FP.fin 0))).Delta ≠ FP.inf false := by
  refine ⟨?_, ?_, ?_, ?_⟩
  all_goals norm_num [Div, New, Float64.RelDelta, Float64.Delta, fpAbs, fpDiv, fpAdd, fpMul]
  all_goals simp

/-- C7 amended: for every `a` with finite nonzero value and finite delta,
and every divisor `b` whose value is exactly zero and whose delta is
strictly positive, `Div(a, b)` does not fail: `b`'s relative error
contribution is `+Inf` and the result's delta is `+Inf`.  (With a `0±0`
divisor, or a zero-valued `a`, the contribution or the delta is NaN
instead, as the counterexample shows.) -/
theorem div_by_zero_infinite (a b : Float64) (qa qd : ℚ)
    (hva : a.val = FP.fin qa) (hqa : qa ≠ 0) (hda : a.delta = FP.fin qd)
    (hbv : b.val = FP.fin 0) (hbd : fpLt (FP.fin 0) b.delta = true) :
    Float64.RelDelta b = FP.inf false ∧ (Div a b).Delta = FP.inf false := by
  have hrb : fpAbs (fpDiv b.delta b.val) = FP.inf false := by
    rw [hbv]
    cases hb : b.delta with
    | fin q =>
        rw [hb] at hbd
        simp only [fpLt, decide_eq_true_eq] at hbd
        have hq : ¬ q = 0 := ne_of_gt hbd
        simp [fpDiv, hq, fpAbs]
    | inf s =>
        rw [hb] at hbd
        simp only [fpLt, Bool.not_eq_true'] at hbd
        simp [fpDiv, hbd, fpAbs]
    | nan =>
        rw [hb] at hbd
        simp [fpLt] at hbd
  have hra : fpAbs (fpDiv a.delta a.val) = FP.fin |qd / qa| := by
    rw [hva, hda]
    simp [fpDiv, hqa, fpAbs]
  have hval : fpDiv a.val b.val = FP.inf (decide (qa < 0)) := by
    rw [hva, hbv]
    simp [fpDiv, hqa]
  refine ⟨hrb, ?_⟩
  show fpAbs (fpAbs (fpMul (fpDiv a.val b.val)
    (fpAdd (fpAbs (fpDiv a.delta a.val)) (fpAbs (fpDiv b.delta b.val))))) = FP.inf false
  rw [hra, hval, hrb]
  simp [fpAdd, fpMul, fpAbs]

/-- C7 witness: the amended theorem applied to `a = 1±0` and `b = 0±1`. -/
theorem div_by_zero_infinite_witness :
    (New (FP.fin 1) (FP.fin 0)).val = FP.fin 1 ∧
    fpLt (FP.fin 0) (New (FP.fin 0) (FP.fin 1)).delta = true ∧
    Float64.RelDelta (New (FP.fin 0) (FP.fin 1)) = FP.inf false ∧
    (Div (New (FP.fin 1) (FP.fin 0)) (New (FP.fin 0) (FP.fin 1))).Delta = FP.inf false := by
  have h := div_by_zero_infinite (New (FP.fin 1) (FP.fin 0)) (New (FP.fin 0) (FP.fin 1)) 1 0
    (by norm_num [New, fpAbs]) (by norm_num) (by norm_num [New, fpAbs])
    (by norm_num [New, fpAbs]) (by norm_num [New, fpAbs, fpLt])
  exact ⟨by norm_num [New, fpAbs], by norm_num [New, fpAbs, fpLt], h.1, h.2⟩

/-! ### C8: the logarithm fast path -/

/-- C8 counterexample: for `x = New(-1, 1)` the claimed returned delta
`x.delta / x.value = -1` differs from the actual returned delta, which is
`1`: `applyLog` itself takes no absolute value, but the `New` constructor
it returns through normalizes the stored delta to `|x.delta/x.value|`.
(The choice of the modelled `math.Log` is irrelevant: the delta does not
depend on it.) -/
theorem applyLog_no_abs_counterexample :
    (applyLog (fun v => v) (New (FP.fin (-1)) (FP.fin 1))).Delta ≠
      fpDiv (New (FP.fin (-1)) (FP.fin 1)).Delta (New (FP.fin (-1)) (FP.fin 1)).Value ∧
    (applyLog (fun v => v) (New (FP.fin (-1)) (FP.fin 1))).Delta = FP.fin 1 ∧
    fpDiv (New (FP.fin (-1)) (FP.fin 1)).Delta (New (FP.fin (-1)) (FP.fin 1)).Value
      = FP.fin (-1) := by
  refine ⟨?_, ?_, ?_⟩
  all_goals norm_num [applyLog, New, Float64.Delta, Float64.Value, fpDiv, fpAbs]

/-- C8 amended: when `Apply` recognizes its argument as the natural
logarithm it delegates to `applyLog`, which returns value
`log(x.value)` and a propagated delta computed as `x.delta / x.value` with
no explicit absolute-value step (unlike the general path) — but the `New`
constructor normalizes the stored delta, so the returned delta is
`|x.delta / x.value|`. -/
theorem applyLog_spec (logf : FP → FP) (x : Float64) :
    (∀ expf eps, Apply logf expf FnTag.log x eps = applyLog logf x) ∧
    (applyLog logf x).Value = logf x.Value ∧
    (applyLog logf x).Delta = fpAbs (fpDiv x.Delta x.Value) :=
  ⟨fun _ _ => rfl, rfl, rfl⟩

/-! ### C9: the general finite-difference path of Apply -/

/-- C9: for every generic function `g` (not recognized as a fast path),
every `x` and every `eps`, `Apply` returns value `g(x.value)` evaluated at
the unperturbed center, and delta
`|((g(x.value+eps) - g(x.value-eps)) / (2*eps)) * x.delta|`. -/
theorem apply_generic_spec (logf expf g : FP → FP) (x : Float64) (eps : FP) :
    (Apply logf expf (FnTag.generic g) x eps).Value = g x.Value ∧
    (Apply logf expf (FnTag.generic g) x eps).Delta =
      fpAbs (fpMul
        (fpDiv (fpSub (g (fpAdd x.Value eps)) (g (fpSub x.Value eps))) (fpMul (FP.fin 2) eps))
        x.Delta) := by
  refine ⟨rfl, ?_⟩
  show fpAbs (fpAbs _) = _
  rw [fpAbs_fpAbs]
  rfl

/-! ### C10: String / Parse round trip -/

theorem splitChar_of_not_mem (sep : Char) (l : List Char) (h : sep ∉ l) :
    splitChar sep l = [l] := by
  induction l with
  | nil => rfl
  | cons c rest ih =>
      have hc : ¬ c = sep := fun hc => h (hc ▸ List.mem_cons_self c rest)
      have hr : sep ∉ rest := fun hm => h (List.mem_cons_of_mem c hm)
      simp [splitChar, ih hr, hc]

theorem splitChar_append (sep : Char) (A B : List Char) (hA : sep ∉ A) :
    splitChar sep (A ++ sep :: B) = A :: splitChar sep B := by
  induction A with
  | nil => simp [splitChar]
  | cons c A ih =>
      have hc : ¬ c = sep := fun hc => hA (hc ▸ List.mem_cons_self c A)
      have hA2 : sep ∉ A := fun hm => hA (List.mem_cons_of_mem c hm)
      simp [splitChar, ih hA2, hc]

theorem stripSpaces_of_clean (l : List Char) (h : ∀ c ∈ l, c.isWhitespace = false) :
    stripSpaces l = l := by
  unfold stripSpaces
  refine List.filter_eq_self.mpr ?_
  intro a ha
  rw [h a ha]
  rfl

/-- C10: for every `Float64` whose value and delta render and parse back
exactly (the shortest-round-trip guarantee Go gives `%v` and
`strconv.ParseFloat` for finite doubles, here a hypothesis on the
modelled formatter `fmtv` and parser `pf`), whose rendered components
contain neither the `±` rune nor whitespace, and whose delta is
nonnegative (the data-model invariant), `Parse(f.String())` succeeds and
returns `f` itself. -/
theorem parse_string_roundtrip (pf : List Char → Option FP) (fmtv : FP → List Char)
    (f : Float64)
    (hv : pf (fmtv f.val) = some f.val)
    (hd : pf (fmtv f.delta) = some f.delta)
    (hdnn : fpLe (FP.fin 0) f.delta = true)
    (hsv : sepChar ∉ fmtv f.val) (hsd : sepChar ∉ fmtv f.delta)
    (hwv : ∀ c ∈ fmtv f.val, c.isWhitespace = false)
    (hwd : ∀ c ∈ fmtv f.delta, c.isWhitespace = false) :
    Parse pf (StringOf fmtv f) = Except.ok f := by
  have hstrip : stripSpaces (StringOf fmtv f) = fmtv f.val ++ sepChar :: fmtv f.delta := by
    unfold StringOf
    refine stripSpaces_of_clean _ ?_
    intro c hc
    rcases List.mem_append.mp hc with h1 | h1
    · exact hwv c h1
    · rcases List.mem_cons.mp h1 with h2 | h2
      · rw [h2]
        rfl
      · exact hwd c h2
  have hsplit : splitChar sepChar (stripSpaces (StringOf fmtv f)) =
      [fmtv f.val, fmtv f.delta] := by
    rw [hstrip, splitChar_append _ _ _ hsv, splitChar_of_not_mem _ _ hsd]
  have hred : Parse pf (StringOf fmtv f) =
      (match pf (fmtv f.val) with
       | none => Except.error ParseErr.badValue
       | some qv =>
           match pf (fmtv f.delta) with
           | none => Except.error ParseErr.badDelta
           | some qd => Except.ok ⟨qv, fpAbs qd⟩) := by
    unfold Parse
    rw [hsplit]
  rw [hred, hv, hd]
  show Except.ok ⟨f.val, fpAbs f.delta⟩ = Except.ok f
  rw [fpAbs_of_nonneg _ hdnn]

/-- C10 witness: the round trip applied to `1±2` with concrete stand-ins
for the standard library formatter and parser. -/
theorem parse_string_roundtrip_witness :
    pfDemo (fmtvDemo (FP.fin 1)) = some (FP.fin 1) ∧
    pfDemo (fmtvDemo (FP.fin 2)) = some (FP.fin 2) ∧
    fpLe (FP.fin 0) (FP.fin 2) = true ∧
    Parse pfDemo (StringOf fmtvDemo ⟨FP.fin 1, FP.fin 2⟩) =
      Except.ok ⟨FP.fin 1, FP.fin 2⟩ := by
  exact ⟨rfl, rfl, by norm_num [fpLe],
    parse_string_roundtrip pfDemo fmtvDemo ⟨FP.fin 1, FP.fin 2⟩ rfl rfl
      (by norm_num [fpLe]) (by decide) (by decide) (by decide) (by decide)⟩

end Approx
